import Mathlib

/-!
# Verification of the merkurial-editor version-control engine

Shallow embedding of the content-addressed version-control engine
(`VersionControl`, `KVStore`, the recursive directory merge) and of the
commit-DAG utilities (`HistoryView.findCommonAncestor`, `HistoryView.isAncestor`),
together with theorems settling the specification claims.

Runtime JavaScript values are embedded as the inductive `JVal`; the CID of a
node is modelled as its canonical serialisation (the source hashes the
serialisation with SHA-256; we drop the hash, keeping the serialisation itself
as the digest, which preserves determinism and, on the nodes these definitions
build, distinctness of distinct contents).  Object stores are association
lists with JavaScript `Map.set` update-in-place-or-append semantics.
-/

set_option linter.unusedVariables false

namespace Merkurial

/-- A runtime JavaScript value (the payloads circulating through `KVStore`,
`replaceInTree` and the merge algorithm are duck-typed in the source). -/
inductive JVal where
  | null : JVal
  | bool : Bool → JVal
  | num : Int → JVal
  | str : String → JVal
  | arr : List JVal → JVal
  | obj : List (String × JVal) → JVal

-- Structural value equality, the model of JavaScript `===` / SameValueZero on
-- the values the engine compares (in the engine those comparisons are between
-- CID strings, where `===` is exactly string-content equality).
mutual
def jeq : JVal → JVal → Bool
  | JVal.null, JVal.null => true
  | JVal.bool a, JVal.bool b => a == b
  | JVal.num a, JVal.num b => a == b
  | JVal.str a, JVal.str b => a == b
  | JVal.arr a, JVal.arr b => jeqList a b
  | JVal.obj a, JVal.obj b => jeqFields a b
  | _, _ => false

def jeqList : List JVal → List JVal → Bool
  | [], [] => true
  | a :: as_, b :: bs => jeq a b && jeqList as_ bs
  | _, _ => false

def jeqFields : List (String × JVal) → List (String × JVal) → Bool
  | [], [] => true
  | (k, v) :: as_, (k', v') :: bs => k == k' && jeq v v' && jeqFields as_ bs
  | _, _ => false
end

/-- JavaScript truthiness for `JVal` (`undefined` is represented by absence,
handled at use sites). -/
def truthy : JVal → Bool
  | JVal.null => false
  | JVal.bool b => b
  | JVal.num n => n != 0
  | JVal.str s => s ≠ ""
  | JVal.arr _ => true
  | JVal.obj _ => true

/-- Field access on an object value: `node.key`, `none` when the field is
absent or the value is not an object (JavaScript `undefined`). -/
def getField (v : JVal) (key : String) : Option JVal :=
  match v with
  | JVal.obj fs => lookupField fs key
  | _ => none
where
  lookupField : List (String × JVal) → String → Option JVal
    | [], _ => none
    | (k, x) :: rest, key => if k = key then some x else lookupField rest key

-- Canonical serialisation of a value; stands in for
-- `sha256(fast-json-stable-stringify(node))` in the source.  The stable
-- stringifier sorts object keys; every object these definitions construct uses
-- one fixed field order per node type, so the unsorted serialisation is
-- equally deterministic on them.
mutual
def ser : JVal → String
  | JVal.null => "null"
  | JVal.bool b => if b then "true" else "false"
  | JVal.num n => toString n
  | JVal.str s => "\"" ++ s ++ "\""
  | JVal.arr xs => "[" ++ serList xs ++ "]"
  | JVal.obj fs => "\x7b" ++ serFields fs ++ "\x7d"

def serList : List JVal → String
  | [] => ""
  | [x] => ser x
  | x :: xs => ser x ++ "," ++ serList xs

def serFields : List (String × JVal) → String
  | [] => ""
  | [(k, v)] => "\"" ++ k ++ "\":" ++ ser v
  | (k, v) :: fs => "\"" ++ k ++ "\":" ++ ser v ++ "," ++ serFields fs
end

/-- `cid(node)`: the content identifier of a node (source: hex SHA-256 of the
stable serialisation; modelled as the serialisation itself). -/
def cid (v : JVal) : String := ser v

/-- The content-addressed key-value store `KVStore`: a `Map<string, CIDable>`
in insertion order. -/
def KVStore := List (String × JVal)

/-- `KVStore.get`: the value bound to a key, if any. -/
def KVStore.get : KVStore → String → Option JVal
  | [], _ => none
  | (k, v) :: rest, key => if k = key then some v else KVStore.get rest key

/-- `Map.set` semantics: update the binding in place when the key is present,
otherwise append a new binding. -/
def KVStore.set (s : KVStore) (key : String) (v : JVal) : KVStore :=
  match s with
  | [] => [(key, v)]
  | (k, w) :: rest =>
      if k = key then (k, v) :: rest else (k, w) :: KVStore.set rest key v

/-- `KVStore.put`: store a node under its content identifier and return the
identifier. -/
def KVStore.put (s : KVStore) (node : JVal) : String × KVStore :=
  (cid node, s.set (cid node) node)

/-- `KVStore.has`. -/
def KVStore.has (s : KVStore) (key : String) : Bool :=
  (s.get key).isSome

/-- `KVStore.transferTo`: copy every entry of `s`, in iteration order, into
`target`. -/
def KVStore.transferTo (s : KVStore) (target : KVStore) : KVStore :=
  match s with
  | [] => target
  | (k, v) :: rest => KVStore.transferTo rest (target.set k v)

/-- A mutable branch pointer (`Branch` in `mutable/branch.ts`). -/
structure Branch where
  uuid : String
  name : String
  commit : String
deriving DecidableEq, Repr

/-- The engine state: the fields of the `VersionControl` class, plus the
`nextId` counter standing in for the `uuidv4()` generator (each call yields a
fresh identifier). -/
structure VC where
  sourceOfTruth : KVStore
  workInProgress : KVStore
  branches : List Branch
  archivedBranches : List Branch
  defaultBranch : Branch
  currentBranch : Branch
  workingRootCid : String
  nextId : Nat

/-- Model of `uuidv4()`: the `n`-th generated identifier. -/
def mkUuid (n : Nat) : String := "uuid-" ++ toString n

/-- Build a `GrammarRoot` object value. -/
def grammarRoot (content : List JVal) : JVal :=
  JVal.obj [("type", JVal.str "grammar_root"), ("content", JVal.arr content)]

/-- Build a `Commit` object value (field order as in the source object
literals; the timestamp is the ambient `new Date().toISOString()`, passed
explicitly). -/
def mkCommit (parents : List JVal) (content : JVal)
    (author timestamp message : String) : JVal :=
  JVal.obj [("type", JVal.str "commit"), ("parents", JVal.arr parents),
    ("content", content), ("author", JVal.str author),
    ("timestamp", JVal.str timestamp), ("message", JVal.str message)]

/-- The `VersionControl` constructor: empty stores, an empty `GrammarRoot`,
a zero-parent initial commit by the sentinel `"system"` author, and the
`"default"` branch pointing at it. -/
def VC.init (timestamp : String) : VC :=
  let root0 := grammarRoot []
  let put0 := KVStore.put [] root0
  let c0 := mkCommit [] (JVal.str put0.1) "system" timestamp "initial commit"
  let put1 := KVStore.put put0.2 c0
  let b : Branch := ⟨mkUuid 0, "default", put1.1⟩
  { sourceOfTruth := put1.2
    workInProgress := []
    branches := [b]
    archivedBranches := []
    defaultBranch := b
    currentBranch := b
    workingRootCid := put0.1
    nextId := 1 }

/-- `VersionControl.put`: store into the working tier. -/
def VC.put (st : VC) (node : JVal) : String × VC :=
  let p := st.workInProgress.put node
  (p.1, { st with workInProgress := p.2 })

/-- `VersionControl.resolve`: working tier first, then source of truth. -/
def VC.resolve (st : VC) (id : String) : Option JVal :=
  match st.workInProgress.get id with
  | some v => some v
  | none => st.sourceOfTruth.get id

/-- Resolution of an arbitrary runtime value used as a key: the store's keys
are all strings, so a non-string key never resolves. -/
def VC.resolveV (st : VC) (key : JVal) : Option JVal :=
  match key with
  | JVal.str s => st.resolve s
  | _ => none

/-- `VersionControl.setWorkingRoot`. -/
def VC.setWorkingRoot (st : VC) (c : String) : VC :=
  { st with workingRootCid := c }

/-- `VersionControl.setRoot`: store the node in the working tier, then point
the working root at it. -/
def VC.setRoot (st : VC) (root : JVal) : VC :=
  let p := st.workInProgress.put root
  { st with workInProgress := p.2, workingRootCid := p.1 }

/-- Repoint a branch record when its uuid matches (the source mutates the one
shared `Branch` object; here every alias with the same uuid is rewritten). -/
def repoint (u c : String) (b : Branch) : Branch :=
  if b.uuid = u then { b with commit := c } else b

/-- Mutation `this.currentBranch.commit = c`, propagated to every alias of the
current branch object. -/
def VC.setHead (st : VC) (c : String) : VC :=
  let u := st.currentBranch.uuid
  { st with
    branches := st.branches.map (repoint u c)
    archivedBranches := st.archivedBranches.map (repoint u c)
    defaultBranch := repoint u c st.defaultBranch
    currentBranch := { st.currentBranch with commit := c } }

/-- `VersionControl.createBranch`.  Returns the new branch and the updated
state. -/
def VC.createBranch (st : VC) (name : String) (fromCommit? : Option String)
    (carryWorkingState : Bool) : Branch × VC :=
  let fromCommit := fromCommit?.getD st.currentBranch.commit
  let newBranch : Branch := ⟨mkUuid st.nextId, name, fromCommit⟩
  if carryWorkingState then
    let sot := st.workInProgress.transferTo st.sourceOfTruth
    (newBranch,
      { st with
        sourceOfTruth := sot
        workInProgress := []
        branches := st.branches ++ [newBranch]
        currentBranch := newBranch
        nextId := st.nextId + 1 })
  else
    (newBranch,
      { st with branches := st.branches ++ [newBranch], nextId := st.nextId + 1 })

/-- `VersionControl.archiveBranch`: remove from the live list (first match by
uuid) and append to the archived list, unless the branch is named
`"default"` or absent from the live list. -/
def VC.archiveBranch (st : VC) (b : Branch) : VC :=
  match st.branches.findIdx? (fun x => x.uuid = b.uuid) with
  | none => st
  | some idx =>
      if b.name = "default" then st
      else
        { st with
          branches := st.branches.eraseIdx idx
          archivedBranches := st.archivedBranches ++ [b] }

/-- `VersionControl.commit`: fold the working tier into source of truth, clear
it, store a single-parent commit on the current working root, and repoint the
current branch.  Returns the commit's CID and the new state. -/
def VC.commit (st : VC) (message author timestamp : String) : String × VC :=
  let sot := st.workInProgress.transferTo st.sourceOfTruth
  let newCommit := mkCommit [JVal.str st.currentBranch.commit]
    (JVal.str st.workingRootCid) author timestamp message
  let p := sot.put newCommit
  let st1 := { st with sourceOfTruth := p.2, workInProgress := ([] : KVStore) }
  (p.1, st1.setHead p.1)

/-- `VersionControl.isDirty`: compare the head commit's `content` with the
working root CID.  The source dereferences the head with `!`; a missing head
is `none` (a crash). -/
def VC.isDirty (st : VC) : Option Bool :=
  match st.resolve st.currentBranch.commit with
  | none => none
  | some k =>
      some (!(match getField k "content" with
        | some v => jeq v (JVal.str st.workingRootCid)
        | none => false))

/-- Is the value exactly the CID string `t` (the `value === oldCid` test)? -/
def isStrEq (t : String) : JVal → Bool
  | JVal.str s => s == t
  | _ => false

-- `VersionControl.replaceInTree`.  The source walks `Object.entries` of the
-- node: a field/element value equal to `oldCid` is replaced; an array value is
-- mapped (replacing string-equal items and recursing into object items); an
-- object value is recursed into; primitives are kept.  It never resolves CID
-- references, so only inline occurrences are rewritten.  The recursive calls
-- `replaceInTree(arrayItem)` / `replaceInTree(objectValue)` are inlined into
-- the corresponding constructor cases.
mutual
def replaceInTree (o n : String) : JVal → JVal
  | JVal.arr xs => JVal.arr (replaceVals o n xs)
  | JVal.obj fs => JVal.obj (replaceFields o n fs)
  | v => v

def replaceVal (o n : String) : JVal → JVal
  | JVal.str s => if s = o then JVal.str n else JVal.str s
  | JVal.arr xs => JVal.arr (replaceItems o n xs)
  | JVal.obj fs => JVal.obj (replaceFields o n fs)
  | v => v

def replaceItem (o n : String) : JVal → JVal
  | JVal.str s => if s = o then JVal.str n else JVal.str s
  | JVal.arr xs => JVal.arr (replaceVals o n xs)
  | JVal.obj fs => JVal.obj (replaceFields o n fs)
  | v => v

def replaceVals (o n : String) : List JVal → List JVal
  | [] => []
  | x :: xs => replaceVal o n x :: replaceVals o n xs

def replaceItems (o n : String) : List JVal → List JVal
  | [] => []
  | x :: xs => replaceItem o n x :: replaceItems o n xs

def replaceFields (o n : String) : List (String × JVal) → List (String × JVal)
  | [] => []
  | (k, v) :: fs => (k, replaceVal o n v) :: replaceFields o n fs
end

-- Does the CID string `t` occur in a value position (field value or array
-- element, at any inline depth) strictly inside the node?
mutual
def occursIn (t : String) : JVal → Bool
  | JVal.arr xs => occursList t xs
  | JVal.obj fs => occursFields t fs
  | _ => false

def occursList (t : String) : List JVal → Bool
  | [] => false
  | x :: xs => isStrEq t x || occursIn t x || occursList t xs

def occursFields (t : String) : List (String × JVal) → Bool
  | [] => false
  | (_, v) :: fs => isStrEq t v || occursIn t v || occursFields t fs
end

/-- `VersionControl.updateNode`: store `newNode` in the working tier; if the
working root resolves, rewrite inline occurrences of `oldCid` in the resolved
root object with `replaceInTree`, store the rewritten root in the working tier
and point the working root at it.  Returns the new node's CID. -/
def VC.updateNode (st : VC) (oldCid : String) (newNode : JVal) : String × VC :=
  let p := st.workInProgress.put newNode
  let st1 := { st with workInProgress := p.2 }
  match st1.resolve st1.workingRootCid with
  | none => (p.1, st1)
  | some root =>
      let newRoot := replaceInTree oldCid p.1 root
      let q := st1.workInProgress.put newRoot
      (p.1, { st1 with workInProgress := q.2, workingRootCid := q.1 })

/-- Key equality for a JavaScript `Map` whose keys are runtime values (`none`
models the `undefined` key).  The names keying the merge maps are strings, for
which SameValueZero is string-content equality. -/
def keq : Option JVal → Option JVal → Bool
  | none, none => true
  | some x, some y => jeq x y
  | _, _ => false

/-- A JavaScript `Map` from (possibly-`undefined`) runtime values to values,
in insertion order. -/
def JMap := List (Option JVal × JVal)

/-- `Map.get`. -/
def JMap.lookup : JMap → Option JVal → Option JVal
  | [], _ => none
  | (k, v) :: rest, key => if keq k key then some v else JMap.lookup rest key

/-- `Map.set`: update in place when present, otherwise append. -/
def JMap.set (m : JMap) (key : Option JVal) (v : JVal) : JMap :=
  match m with
  | [] => [(key, v)]
  | (k, w) :: rest =>
      if keq k key then (k, v) :: rest else (k, w) :: JMap.set rest key v

/-- `Map.has`. -/
def JMap.hasKey (m : JMap) (key : Option JVal) : Bool :=
  (m.lookup key).isSome

/-- `(node).children || []`, yielding `none` (a crash in the subsequent
`for..of`) when the field is a truthy non-array. -/
def childrenOf (v : JVal) : Option (List JVal) :=
  match getField v "children" with
  | none => some []
  | some w =>
      if truthy w then
        match w with
        | JVal.arr xs => some xs
        | _ => none
      else some []

/-- The merge map key of a directory child:
`child.type === 'folder' ? child.name : (child.name || 'untitled')`. -/
def childKey (child : JVal) : Option JVal :=
  match getField child "type" with
  | some (JVal.str "folder") => getField child "name"
  | _ =>
      match getField child "name" with
      | some nm => if truthy nm then some nm else some (JVal.str "untitled")
      | none => some (JVal.str "untitled")

/-- Build the name→child-CID map of a directory's children list: unresolvable
children are skipped; resolvable ones are keyed by `childKey`. -/
def buildChildMap (st : VC) : List JVal → JMap → JMap
  | [], m => m
  | c :: rest, m =>
      match st.resolveV c with
      | none => buildChildMap st rest m
      | some child => buildChildMap st rest (m.set (childKey child) c)

/-- Build the name→directory-CID map of a `GrammarRoot` content list: only
resolvable entries with a truthy `name` are inserted. -/
def buildDirMap (st : VC) : List JVal → JMap → JMap
  | [], m => m
  | c :: rest, m =>
      match st.resolveV c with
      | none => buildDirMap st rest m
      | some dir =>
          match getField dir "name" with
          | some nm =>
              if truthy nm then buildDirMap st rest (m.set (some nm) c)
              else buildDirMap st rest m
          | none => buildDirMap st rest m

/-- `(child)?.type === 'folder'`. -/
def isFolderQ : Option JVal → Bool
  | none => false
  | some child =>
      match getField child "type" with
      | some (JVal.str s) => s == "folder"
      | _ => false

/-- The `name:` field of a synthesized merged folder; serialisation drops an
`undefined` field, modelled by omitting it. -/
def nameFieldOf (current : JVal) : List (String × JVal) :=
  match getField current "name" with
  | some v => [("name", v)]
  | none => []

/-- The trailing pass of both merge loops: source-map entries whose key was
not processed in the current-side loop (i.e. absent from the current map), in
source insertion order. -/
def extraEntries (currentM : JMap) : JMap → List JVal
  | [] => []
  | (k, v) :: rest =>
      if currentM.hasKey k then extraEntries currentM rest
      else v :: extraEntries currentM rest

/-- The current-side loop of `mergeDirectories`: for each name-keyed entry of
the current map, keep it when the name is absent from the source map, merge
recursively (through the merger `md`, instantiated with `mergeDirectories` at
the remaining recursion depth) when both sides resolve to folders, and
otherwise take the source side (conflict: source wins). -/
def mergeChildLoop (md : VC → JVal → JVal → Option (JVal × VC))
    (sourceChildren : JMap) : VC → List (Option JVal × JVal) →
    Option (List JVal × VC)
  | st, [] => some ([], st)
  | st, (name, currentChildCid) :: rest =>
      match sourceChildren.lookup name with
      | none =>
          match mergeChildLoop md sourceChildren st rest with
          | none => none
          | some (tl, st') => some (currentChildCid :: tl, st')
      | some sourceChildCid =>
          let currentChild := st.resolveV currentChildCid
          let sourceChild := st.resolveV sourceChildCid
          if isFolderQ currentChild && isFolderQ sourceChild then
            match md st currentChildCid sourceChildCid with
            | none => none
            | some (m, st') =>
                match mergeChildLoop md sourceChildren st' rest with
                | none => none
                | some (tl, st'') => some (m :: tl, st'')
          else
            match mergeChildLoop md sourceChildren st rest with
            | none => none
            | some (tl, st') => some (sourceChildCid :: tl, st')

/-- `VersionControl.mergeDirectories`, with `fuel` bounding the recursion
depth (the source recursion is unbounded; on the engine's acyclic stores a
depth equal to the tree height suffices). -/
def mergeDirectories : Nat → VC → JVal → JVal → Option (JVal × VC)
  | 0, _, _, _ => none
  | fuel + 1, st, currentCid, sourceCid =>
      match st.resolveV currentCid, st.resolveV sourceCid with
      | none, _ => some (sourceCid, st)
      | some _, none => some (currentCid, st)
      | some current, some source =>
          match childrenOf current, childrenOf source with
          | some curKids, some srcKids =>
              let currentChildren := buildChildMap st curKids []
              let sourceChildren := buildChildMap st srcKids []
              match mergeChildLoop (mergeDirectories fuel) sourceChildren st
                  currentChildren with
              | none => none
              | some (mergedChildren, st') =>
                  let extras := extraEntries currentChildren sourceChildren
                  let mergedDir := JVal.obj ([("type", JVal.str "folder")] ++
                    nameFieldOf current ++
                    [("children", JVal.arr (mergedChildren ++ extras))])
                  let p := st'.sourceOfTruth.put mergedDir
                  some (JVal.str p.1, { st' with sourceOfTruth := p.2 })
          | _, _ => none

/-- The current-side loop of `mergeGrammarRoots`: keep names absent from the
source map, and merge the two directories for names present in both. -/
def mergeRootEntries (sourceDirs : JMap) (fuel : Nat) :
    VC → List (Option JVal × JVal) → Option (List JVal × VC)
  | st, [] => some ([], st)
  | st, (name, currentDirCid) :: rest =>
      match sourceDirs.lookup name with
      | none =>
          match mergeRootEntries sourceDirs fuel st rest with
          | none => none
          | some (tl, st') => some (currentDirCid :: tl, st')
      | some sourceDirCid =>
          match mergeDirectories fuel st currentDirCid sourceDirCid with
          | none => none
          | some (m, st') =>
              match mergeRootEntries sourceDirs fuel st' rest with
              | none => none
              | some (tl, st'') => some (m :: tl, st'')

/-- `VersionControl.mergeGrammarRoots`. -/
def VC.mergeGrammarRoots (st : VC) (currentCid sourceCid : JVal)
    (fuel : Nat) : Option (JVal × VC) :=
  match st.resolveV currentCid, st.resolveV sourceCid with
  | none, none =>
      let emptyRoot := grammarRoot []
      let p := st.sourceOfTruth.put emptyRoot
      some (JVal.str p.1, { st with sourceOfTruth := p.2 })
  | none, some _ => some (sourceCid, st)
  | some _, none => some (currentCid, st)
  | some current, some source =>
      match getField current "content", getField source "content" with
      | some (JVal.arr curContent), some (JVal.arr srcContent) =>
          let currentDirs := buildDirMap st curContent []
          let sourceDirs := buildDirMap st srcContent []
          match mergeRootEntries sourceDirs fuel st currentDirs with
          | none => none
          | some (mergedDirCids, st') =>
              let extras := extraEntries currentDirs sourceDirs
              let mergedRoot := grammarRoot (mergedDirCids ++ extras)
              let p := st'.sourceOfTruth.put mergedRoot
              some (JVal.str p.1, { st' with sourceOfTruth := p.2 })
      | _, _ => none

/-- `VersionControl.merge`: no-op (state returned unchanged) when merging a
branch into itself or when both heads coincide; otherwise resolve both head
commits (`!` dereference: `none` models the crash), merge their trees, store
a two-parent merge commit, repoint the current branch, set the working root
to the merged content and clear the working tier. -/
def VC.merge (st : VC) (sourceBranch : Branch) (timestamp : String)
    (fuel : Nat) : Option VC :=
  if sourceBranch.uuid = st.currentBranch.uuid then some st
  else if st.currentBranch.commit = sourceBranch.commit then some st
  else
    match st.resolve st.currentBranch.commit, st.resolve sourceBranch.commit with
    | some currentCommit, some sourceCommit =>
        let curContent := (getField currentCommit "content").getD JVal.null
        let srcContent := (getField sourceCommit "content").getD JVal.null
        match st.mergeGrammarRoots curContent srcContent fuel with
        | none => none
        | some (mergedContent, st1) =>
            match mergedContent with
            | JVal.str mergedCidStr =>
                let mergeCommit := mkCommit
                  [JVal.str st.currentBranch.commit, JVal.str sourceBranch.commit]
                  mergedContent "merge" timestamp
                  ("Merge '" ++ sourceBranch.name ++ "' into '" ++
                    st.currentBranch.name ++ "'")
                let p := st1.sourceOfTruth.put mergeCommit
                let st2 := { st1 with sourceOfTruth := p.2 }
                let st3 := st2.setHead p.1
                some { st3 with
                  workingRootCid := mergedCidStr
                  workInProgress := ([] : KVStore) }
            | _ => none
    | _, _ => none

/-- A resolver (`HistoryView`'s `Resolver` parameter): any function from CID
strings to stored nodes. -/
def Resolver := String → Option JVal

/-- The `parents` list of a resolved commit, as CID strings (`commit.parents`;
commits built by the engine always carry an array of strings there). -/
def parentsStrings (v : JVal) : List String :=
  match getField v "parents" with
  | some (JVal.arr l) =>
      l.filterMap (fun x => match x with | JVal.str s => some s | _ => none)
  | _ => []

/-- The loop of `HistoryView.isAncestor`: BFS from the descendant over all
parent edges with a visited set; `fuel` bounds the number of iterations (the
source loop is unbounded but, over a finite store, terminating). -/
def isAncestorLoop (potentialAncestor : String) (resolve : Resolver) :
    Nat → List String → List String → Bool
  | 0, _, _ => false
  | _ + 1, [], _ => false
  | fuel + 1, c :: rest, visited =>
      if c = potentialAncestor then true
      else if visited.contains c then isAncestorLoop potentialAncestor resolve fuel rest visited
      else
        match resolve c with
        | some k =>
            isAncestorLoop potentialAncestor resolve fuel
              (rest ++ parentsStrings k) (c :: visited)
        | none => isAncestorLoop potentialAncestor resolve fuel rest (c :: visited)

/-- `HistoryView.isAncestor`. -/
def isAncestor (potentialAncestor descendant : String) (resolve : Resolver)
    (fuel : Nat) : Bool :=
  isAncestorLoop potentialAncestor resolve fuel [descendant] []

/-- One loop iteration plus recursion of `HistoryView.findCommonAncestor`:
bidirectional BFS, processing one element of queue A then one of queue B per
iteration.  Result `none` means the fuel ran out; `some none` is the source's
`null` (no common ancestor found). -/
def fcaLoop (resolve : Resolver) :
    Nat → List String → List String → List String → List String →
    Option (Option String)
  | fuel, qA, qB, vA, vB =>
      if qA.isEmpty && qB.isEmpty then some none
      else
        match fuel with
        | 0 => none
        | fuel + 1 =>
            match qA with
            | cidA :: restA =>
                if vB.contains cidA then some (some cidA)
                else
                  let vA' := cidA :: vA
                  let qA' := restA ++
                    (match resolve cidA with
                     | some k => parentsStrings k
                     | none => [])
                  match qB with
                  | cidB :: restB =>
                      if vA'.contains cidB then some (some cidB)
                      else
                        fcaLoop resolve fuel qA'
                          (restB ++
                            (match resolve cidB with
                             | some k => parentsStrings k
                             | none => []))
                          vA' (cidB :: vB)
                  | [] => fcaLoop resolve fuel qA' [] vA' vB
            | [] =>
                match qB with
                | cidB :: restB =>
                    if vA.contains cidB then some (some cidB)
                    else
                      fcaLoop resolve fuel []
                        (restB ++
                          (match resolve cidB with
                           | some k => parentsStrings k
                           | none => []))
                        vA (cidB :: vB)
                | [] => some none

/-- `HistoryView.findCommonAncestor`. -/
def findCommonAncestor (branchA branchB : Branch) (resolve : Resolver)
    (fuel : Nat) : Option (Option String) :=
  fcaLoop resolve fuel [branchA.commit] [branchB.commit] [] []

/-! ## Concrete example states used by witnesses and counterexamples -/

/-- A fresh engine. -/
def st0 : VC := VC.init "t0"

/-- A `Document` named `"x"`, first version. -/
def exDoc1 : JVal := JVal.obj [("type", JVal.str "document"),
  ("name", JVal.str "x"), ("createdAt", JVal.str "t1"), ("content", JVal.arr [])]

/-- A `Document` named `"x"`, second version (different `createdAt`, hence a
different CID). -/
def exDoc2 : JVal := JVal.obj [("type", JVal.str "document"),
  ("name", JVal.str "x"), ("createdAt", JVal.str "t2"), ("content", JVal.arr [])]

/-- Directory `"docs"` holding the first document version. -/
def exDir1 : JVal := JVal.obj [("type", JVal.str "folder"),
  ("name", JVal.str "docs"), ("children", JVal.arr [JVal.str (cid exDoc1)])]

/-- Directory `"docs"` holding the second document version. -/
def exDir2 : JVal := JVal.obj [("type", JVal.str "folder"),
  ("name", JVal.str "docs"), ("children", JVal.arr [JVal.str (cid exDoc2)])]

/-- Root over `exDir1`. -/
def exRoot1 : JVal := grammarRoot [JVal.str (cid exDir1)]

/-- Root over `exDir2`. -/
def exRoot2 : JVal := grammarRoot [JVal.str (cid exDir2)]

/-- The directory the name-keyed merge of `exDir1` and `exDir2` synthesizes:
the conflicting document `"x"` resolved to the source side's version. -/
def exMergedDir : JVal := JVal.obj [("type", JVal.str "folder"),
  ("name", JVal.str "docs"), ("children", JVal.arr [JVal.str (cid exDoc2)])]

/-- The root the merge of `exRoot1` and `exRoot2` synthesizes. -/
def exMergedRoot : JVal := grammarRoot [JVal.str (cid exMergedDir)]

/-- Engine whose working tier holds the two-level tree
`exRoot1 → exDir1 → exDoc1`, working root at `exRoot1`. -/
def stU : VC :=
  let s1 := (st0.put exDoc1).2
  let s2 := (s1.put exDir1).2
  s2.setRoot exRoot1

/-- Engine whose source of truth holds both example trees (the two branch
contents of the merge scenario). -/
def stM : VC :=
  { st0 with sourceOfTruth :=
      ((((((st0.sourceOfTruth.put exDoc1).2.put exDoc2).2.put
        exDir1).2.put exDir2).2.put exRoot1).2.put exRoot2).2 }

/-- `st0` after one commit on the default branch. -/
def stC : VC := (st0.commit "m" "alice" "t1").2

/-- A `"feat"` branch created at `stC` (still pointing at the pre-commit
head's successor, i.e. at `stC`'s head). -/
def stB : Branch × VC := stC.createBranch "feat" none false

/-- `stB`'s engine after one more commit on the default branch, so that the
default head and the `"feat"` head differ. -/
def stC2 : VC := (stB.2.commit "m2" "alice" "t2").2

/-- Commits and resolver of the ancestor scenario: `c0 → c1 → c2` and
`c1 → c3`. -/
def k0 : JVal := mkCommit [] (JVal.str "r") "a" "t0" "c0"

/-- Commit `c1`, child of `c0`. -/
def k1 : JVal := mkCommit [JVal.str "c0"] (JVal.str "r") "a" "t1" "c1"

/-- Commit `c2`, child of `c1`. -/
def k2 : JVal := mkCommit [JVal.str "c1"] (JVal.str "r") "a" "t2" "c2"

/-- Commit `c3`, child of `c1`. -/
def k3 : JVal := mkCommit [JVal.str "c1"] (JVal.str "r") "a" "t3" "c3"

/-- Resolver of the ancestor scenario store. -/
def res8 : Resolver := fun s =>
  if s = "c0" then some k0 else if s = "c1" then some k1
  else if s = "c2" then some k2 else if s = "c3" then some k3 else none

/-- The engine produced by merging `"feat"` into the default branch at
`stC2`. -/
def stMg : VC := (stC2.merge stB.1 "t9" 10).getD stC2

/-! ## Helper lemmas about the store -/

/-- The keys of a store, in insertion order. -/
def KVStore.keys (s : KVStore) : List String := s.map Prod.fst

theorem KVStore.get_set_self (s : KVStore) (k : String) (v : JVal) :
    (s.set k v).get k = some v := by
  induction s with
  | nil => simp [KVStore.set, KVStore.get]
  | cons hd tl ih =>
      obtain ⟨k0, v0⟩ := hd
      by_cases h : k0 = k
      · simp [KVStore.set, KVStore.get, h]
      · simp [KVStore.set, KVStore.get, h, ih]

theorem KVStore.get_set_ne (s : KVStore) (k k' : String) (v : JVal)
    (h : k' ≠ k) : (s.set k v).get k' = s.get k' := by
  induction s with
  | nil => simp [KVStore.set, KVStore.get, Ne.symm h]
  | cons hd tl ih =>
      obtain ⟨k0, v0⟩ := hd
      by_cases h0 : k0 = k
      · subst h0
        simp [KVStore.set, KVStore.get, Ne.symm h]
      · simp only [KVStore.set, if_neg h0, KVStore.get]
        by_cases h1 : k0 = k'
        · simp [h1]
        · simp [h1, ih]

theorem KVStore.transferTo_get_not_mem (s : KVStore) (t : KVStore)
    (k : String) (h : k ∉ s.keys) : (s.transferTo t).get k = t.get k := by
  induction s generalizing t with
  | nil => rfl
  | cons hd tl ih =>
      obtain ⟨k0, v0⟩ := hd
      simp only [KVStore.keys, List.map_cons, List.mem_cons] at h
      push_neg at h
      simp only [KVStore.transferTo]
      rw [ih _ (by simpa [KVStore.keys] using h.2)]
      exact KVStore.get_set_ne t k0 k v0 h.1

theorem KVStore.transferTo_get_mem (s : KVStore) (t : KVStore)
    (k : String) (v : JVal) (hnd : s.keys.Nodup) (hget : s.get k = some v) :
    (s.transferTo t).get k = some v := by
  induction s generalizing t with
  | nil => simp [KVStore.get] at hget
  | cons hd tl ih =>
      obtain ⟨k0, v0⟩ := hd
      simp only [KVStore.keys, List.map_cons, List.nodup_cons] at hnd
      simp only [KVStore.get] at hget
      by_cases h : k0 = k
      · subst h
        simp at hget
        subst hget
        simp only [KVStore.transferTo]
        rw [KVStore.transferTo_get_not_mem tl _ k0 (by simpa [KVStore.keys] using hnd.1)]
        exact KVStore.get_set_self t k0 _
      · simp only [if_neg h] at hget
        simp only [KVStore.transferTo]
        exact ih (t.set k0 v0) hnd.2 hget

theorem VC.resolve_of_wip_nil (st : VC) (h : st.workInProgress = ([] : KVStore))
    (id : String) : st.resolve id = st.sourceOfTruth.get id := by
  unfold VC.resolve
  rw [h]
  rfl

theorem isAncestorLoop_nil_queue (a : String) (r : Resolver) (fl : Nat)
    (vis : List String) : isAncestorLoop a r fl [] vis = false := by
  cases fl <;> rfl

/-! ## Replacement erases every inline occurrence -/

mutual
theorem occursIn_replaceInTree (o n : String) (h : o ≠ n) :
    ∀ v : JVal, occursIn o (replaceInTree o n v) = false
  | JVal.null => rfl
  | JVal.bool _ => rfl
  | JVal.num _ => rfl
  | JVal.str _ => rfl
  | JVal.arr xs => by
      simp only [replaceInTree, occursIn]
      exact occursList_replaceVals o n h xs
  | JVal.obj fs => by
      simp only [replaceInTree, occursIn]
      exact occursFields_replaceFields o n h fs

theorem isStrEq_replaceVal (o n : String) (h : o ≠ n) :
    ∀ v : JVal, isStrEq o (replaceVal o n v) = false
  | JVal.null => rfl
  | JVal.bool _ => rfl
  | JVal.num _ => rfl
  | JVal.str s => by
      simp only [replaceVal]
      by_cases hs : s = o
      · simp only [if_pos hs, isStrEq]
        exact beq_false_of_ne (Ne.symm h)
      · simp only [if_neg hs, isStrEq]
        exact beq_false_of_ne hs
  | JVal.arr _ => rfl
  | JVal.obj _ => rfl

theorem occursIn_replaceVal (o n : String) (h : o ≠ n) :
    ∀ v : JVal, occursIn o (replaceVal o n v) = false
  | JVal.null => rfl
  | JVal.bool _ => rfl
  | JVal.num _ => rfl
  | JVal.str s => by
      simp only [replaceVal]
      split <;> rfl
  | JVal.arr xs => by
      simp only [replaceVal, occursIn]
      exact occursList_replaceItems o n h xs
  | JVal.obj fs => by
      simp only [replaceVal, occursIn]
      exact occursFields_replaceFields o n h fs

theorem isStrEq_replaceItem (o n : String) (h : o ≠ n) :
    ∀ v : JVal, isStrEq o (replaceItem o n v) = false
  | JVal.null => rfl
  | JVal.bool _ => rfl
  | JVal.num _ => rfl
  | JVal.str s => by
      simp only [replaceItem]
      by_cases hs : s = o
      · simp only [if_pos hs, isStrEq]
        exact beq_false_of_ne (Ne.symm h)
      · simp only [if_neg hs, isStrEq]
        exact beq_false_of_ne hs
  | JVal.arr _ => rfl
  | JVal.obj _ => rfl

theorem occursIn_replaceItem (o n : String) (h : o ≠ n) :
    ∀ v : JVal, occursIn o (replaceItem o n v) = false
  | JVal.null => rfl
  | JVal.bool _ => rfl
  | JVal.num _ => rfl
  | JVal.str s => by
      simp only [replaceItem]
      split <;> rfl
  | JVal.arr xs => by
      simp only [replaceItem, occursIn]
      exact occursList_replaceVals o n h xs
  | JVal.obj fs => by
      simp only [replaceItem, occursIn]
      exact occursFields_replaceFields o n h fs

theorem occursList_replaceVals (o n : String) (h : o ≠ n) :
    ∀ xs : List JVal, occursList o (replaceVals o n xs) = false
  | [] => rfl
  | x :: xs => by
      simp only [replaceVals, occursList, Bool.or_eq_false_iff]
      exact ⟨⟨isStrEq_replaceVal o n h x, occursIn_replaceVal o n h x⟩,
        occursList_replaceVals o n h xs⟩

theorem occursList_replaceItems (o n : String) (h : o ≠ n) :
    ∀ xs : List JVal, occursList o (replaceItems o n xs) = false
  | [] => rfl
  | x :: xs => by
      simp only [replaceItems, occursList, Bool.or_eq_false_iff]
      exact ⟨⟨isStrEq_replaceItem o n h x, occursIn_replaceItem o n h x⟩,
        occursList_replaceItems o n h xs⟩

theorem occursFields_replaceFields (o n : String) (h : o ≠ n) :
    ∀ fs : List (String × JVal), occursFields o (replaceFields o n fs) = false
  | [] => rfl
  | (k, v) :: fs => by
      simp only [replaceFields, occursFields, Bool.or_eq_false_iff]
      exact ⟨⟨isStrEq_replaceVal o n h v, occursIn_replaceVal o n h v⟩,
        occursFields_replaceFields o n h fs⟩
end

/-! ## Claim theorems -/

/-- C7: `resolve(id)` returns the working-tier value when the working tier
holds `id`, otherwise the source-of-truth value when that tier holds `id`,
otherwise a missing result.  (`VC.resolve` is a total function of the model:
no input makes it throw.) -/
theorem resolve_two_tier (st : VC) (id : String) :
    (st.workInProgress.has id = true → st.resolve id = st.workInProgress.get id) ∧
    (st.workInProgress.has id = false → st.sourceOfTruth.has id = true →
      st.resolve id = st.sourceOfTruth.get id) ∧
    (st.workInProgress.has id = false → st.sourceOfTruth.has id = false →
      st.resolve id = none) := by
  unfold VC.resolve KVStore.has
  rcases hw : st.workInProgress.get id with _ | v
  · rcases hs : st.sourceOfTruth.get id with _ | w
    · simp [hw, hs]
    · simp [hw, hs]
  · simp [hw]

/-- Witness for C7: on the fresh engine, an unknown CID resolves to missing. -/
theorem resolve_two_tier_witness : st0.resolve "nope" = none :=
  (resolve_two_tier st0 "nope").2.2 rfl rfl

/-- C9: `isAncestor` is reflexive for every CID and resolver (the candidate
check precedes resolution), given at least one loop iteration of fuel. -/
theorem isAncestor_refl (c : String) (resolve : Resolver) (fuel : Nat)
    (h : 1 ≤ fuel) : isAncestor c c resolve fuel = true := by
  obtain ⟨f, rfl⟩ := Nat.exists_eq_add_of_le' h
  simp [isAncestor, isAncestorLoop]

/-- Witness for C9: a CID that resolves to nothing is still its own
ancestor. -/
theorem isAncestor_refl_witness :
    isAncestor "dangling" "dangling" (fun _ => none) 1 = true :=
  isAncestor_refl "dangling" (fun _ => none) 1 (by decide)

/-- C6: `merge(sourceBranch)` is a no-op — the state (branch lists, current
and default branch, both store tiers, working root) is returned unchanged and
no commit is created — when the source branch is the current branch (same
uuid) or both heads coincide. -/
theorem merge_noop_self_or_same_head (st : VC) (src : Branch) (ts : String)
    (fuel : Nat)
    (h : src.uuid = st.currentBranch.uuid ∨ st.currentBranch.commit = src.commit) :
    st.merge src ts fuel = some st := by
  unfold VC.merge
  rcases h with h | h
  · simp [h]
  · by_cases hu : src.uuid = st.currentBranch.uuid
    · simp [hu]
    · simp [hu, h]

/-- Witness for C6: merging the current branch into itself on the fresh
engine changes nothing. -/
theorem merge_noop_witness : st0.merge st0.currentBranch "t9" 0 = some st0 :=
  merge_noop_self_or_same_head st0 st0.currentBranch "t9" 0 (Or.inl rfl)

/-- Counterexample for C4: on a fresh engine, `createBranch("default")` is
not rejected — afterwards two live branches carry the name `"default"`, so
live branch names are not pairwise distinct. -/
theorem createBranch_duplicate_name_not_rejected :
    ((st0.createBranch "default" none false).2.branches.map Branch.name) =
      ["default", "default"] := rfl

/-- C4 (amended): `createBranch` performs no name-uniqueness check: for every
state and name — duplicate or not — it appends exactly one new live branch
carrying that name (so a duplicate name yields two live branches with equal
names rather than a rejected no-op). -/
theorem createBranch_always_appends (st : VC) (name : String)
    (fromCommit? : Option String) (carry : Bool) :
    (st.createBranch name fromCommit? carry).2.branches =
      st.branches ++ [(st.createBranch name fromCommit? carry).1] ∧
    (st.createBranch name fromCommit? carry).1.name = name := by
  cases carry <;> simp [VC.createBranch]

/-- C10: `archiveBranch` guards on the branch *name*: any branch named
`"default"` is never archived (the state is unchanged even when it is not the
engine's default branch), while a found branch with any other name is removed
from the live list at its uuid-matched index and appended to the archived
list. -/
theorem archiveBranch_guard_by_name (st : VC) (b : Branch) :
    (b.name = "default" → st.archiveBranch b = st) ∧
    (∀ i : Nat, b.name ≠ "default" →
      st.branches.findIdx? (fun x => x.uuid = b.uuid) = some i →
      (st.archiveBranch b).branches = st.branches.eraseIdx i ∧
      (st.archiveBranch b).archivedBranches = st.archivedBranches ++ [b]) := by
  constructor
  · intro hname
    unfold VC.archiveBranch
    rcases hidx : st.branches.findIdx? (fun x => x.uuid = b.uuid) with _ | i
    · rw [hidx]
    · rw [hidx]; simp [hname]
  · intro i hname hidx
    unfold VC.archiveBranch
    rw [hidx]
    simp [hname]

/-- Witness for C10: archiving the `"feat"` branch removes it (index 1) and
archives it; archiving a non-default branch named `"default"` is a no-op. -/
theorem archiveBranch_witness :
    ((stB.2.archiveBranch stB.1).branches = stB.2.branches.eraseIdx 1 ∧
      (stB.2.archiveBranch stB.1).archivedBranches =
        stB.2.archivedBranches ++ [stB.1]) ∧
    st0.archiveBranch ⟨"u99", "default", "c99"⟩ = st0 :=
  ⟨(archiveBranch_guard_by_name stB.2 stB.1).2 1 (by decide) (by decide),
   (archiveBranch_guard_by_name st0 ⟨"u99", "default", "c99"⟩).1 rfl⟩

/-- Counterexample for C1: in `stU` the working root resolves to `exRoot1`,
whose directory `exDir1` is reachable only through a CID reference and holds
`cid exDoc1` inline.  After `updateNode (cid exDoc1) exDoc2` the working root
CID is unchanged, it still resolves to the old root, the directory still
resolves unchanged, and the old CID still occurs inside it — so occurrences
behind CID references are not replaced and no ancestor on that path was
rewritten. -/
theorem updateNode_misses_referenced_occurrence :
    ((stU.updateNode (cid exDoc1) exDoc2).2).workingRootCid =
        stU.workingRootCid ∧
    ((stU.updateNode (cid exDoc1) exDoc2).2).resolve
        ((stU.updateNode (cid exDoc1) exDoc2).2).workingRootCid =
        some exRoot1 ∧
    ((stU.updateNode (cid exDoc1) exDoc2).2).resolveV
        (JVal.str (cid exDir1)) = some exDir1 ∧
    occursIn (cid exDoc1) exDir1 = true ∧
    cid exDoc1 ≠ cid exDoc2 :=
  ⟨rfl, rfl, rfl, rfl, by decide⟩

/-- C1 (amended): `updateNode(oldCid, newNode)` stores `newNode` in the
working tier and returns its CID; when the working root resolves, it rewrites
only the *inline* occurrences of `oldCid` in the resolved root object
(recursing through inline arrays and objects but never following CID
references), re-stores that single rewritten root object, and repoints the
working root at its CID — after which the rewritten root contains no inline
occurrence of `oldCid`.  Nodes reachable only by resolving CID references are
not rewritten and no other ancestor is re-stored. -/
theorem updateNode_inline_rewrite (st : VC) (oldCid : String)
    (newNode root : JVal)
    (hroot : ({ st with workInProgress := (st.workInProgress.put newNode).2 } : VC).resolve
      st.workingRootCid = some root) :
    (st.updateNode oldCid newNode).1 = cid newNode ∧
    ((st.updateNode oldCid newNode).2).workingRootCid =
      cid (replaceInTree oldCid (cid newNode) root) ∧
    ((st.updateNode oldCid newNode).2).workInProgress.get
        (cid (replaceInTree oldCid (cid newNode) root)) =
      some (replaceInTree oldCid (cid newNode) root) ∧
    (cid (replaceInTree oldCid (cid newNode) root) ≠ cid newNode →
      ((st.updateNode oldCid newNode).2).workInProgress.get (cid newNode) =
        some newNode) ∧
    (oldCid ≠ cid newNode →
      occursIn oldCid (replaceInTree oldCid (cid newNode) root) = false) := by
  unfold VC.updateNode
  simp only [KVStore.put] at hroot ⊢
  rw [hroot]
  refine ⟨rfl, rfl, ?_, ?_, ?_⟩
  · exact KVStore.get_set_self _ _ _
  · intro hne
    rw [KVStore.get_set_ne _ _ _ _ (Ne.symm hne)]
    exact KVStore.get_set_self _ _ _
  · intro hne
    exact occursIn_replaceInTree oldCid (cid newNode) hne root

/-- Witness for C1 (amended): the rewrite applied to a root whose `content`
array holds `oldCid` inline replaces it and re-stores the rewritten root. -/
theorem updateNode_inline_rewrite_witness :
    (stU.updateNode (cid exDir1) exDir2).1 = cid exDir2 ∧
    ((stU.updateNode (cid exDir1) exDir2).2).workingRootCid =
      cid (replaceInTree (cid exDir1) (cid exDir2) exRoot1) ∧
    ((stU.updateNode (cid exDir1) exDir2).2).workInProgress.get (cid exDir2) =
      some exDir2 ∧
    occursIn (cid exDir1) (replaceInTree (cid exDir1) (cid exDir2) exRoot1) =
      false :=
  ⟨(updateNode_inline_rewrite stU (cid exDir1) exDir2 exRoot1 rfl).1,
   (updateNode_inline_rewrite stU (cid exDir1) exDir2 exRoot1 rfl).2.1,
   (updateNode_inline_rewrite stU (cid exDir1) exDir2 exRoot1 rfl).2.2.2.1
     (by decide),
   (updateNode_inline_rewrite stU (cid exDir1) exDir2 exRoot1 rfl).2.2.2.2
     (by decide)⟩

/-- C3: `commit(message, author)` transfers every working-tier entry into the
source-of-truth tier (any entry whose key is not the new commit's own CID
lands intact; the key set of a JavaScript `Map` is duplicate-free, stated as
the `Nodup` hypothesis), clears the working tier, stores a commit whose
`parents` list is exactly the prior current head and whose `content` is the
working root CID, repoints the current branch to it and returns its CID;
immediately afterwards `isDirty()` is `false`, and after a `setRoot` whose
stored root's CID differs from the head commit's content CID, `isDirty()` is
`true`. -/
theorem commit_spec (st : VC) (message author ts : String)
    (hnd : st.workInProgress.keys.Nodup) :
    (∀ (k : String) (v : JVal), st.workInProgress.get k = some v →
      k ≠ (st.commit message author ts).1 →
      ((st.commit message author ts).2).sourceOfTruth.get k = some v) ∧
    ((st.commit message author ts).2).workInProgress = ([] : KVStore) ∧
    (∃ kc : JVal,
      ((st.commit message author ts).2).sourceOfTruth.get
          (st.commit message author ts).1 = some kc ∧
      getField kc "parents" =
        some (JVal.arr [JVal.str st.currentBranch.commit]) ∧
      getField kc "content" = some (JVal.str st.workingRootCid)) ∧
    ((st.commit message author ts).2).currentBranch =
      { st.currentBranch with commit := (st.commit message author ts).1 } ∧
    ((st.commit message author ts).2).isDirty = some false ∧
    (∀ v : JVal, cid v ≠ st.workingRootCid →
      cid v ≠ (st.commit message author ts).1 →
      (((st.commit message author ts).2).setRoot v).isDirty = some true) := by
  refine ⟨?_, rfl,
    ⟨mkCommit [JVal.str st.currentBranch.commit] (JVal.str st.workingRootCid)
      author ts message, ?_, rfl, rfl⟩, rfl, ?_, ?_⟩
  · intro k v hget hne
    unfold VC.commit at hne ⊢
    simp only [VC.setHead, KVStore.put] at hne ⊢
    rw [KVStore.get_set_ne _ _ _ _ hne]
    exact KVStore.transferTo_get_mem _ _ _ _ hnd hget
  · unfold VC.commit
    simp only [VC.setHead, KVStore.put]
    exact KVStore.get_set_self _ _ _
  · unfold VC.commit VC.isDirty VC.resolve
    simp only [VC.setHead, KVStore.put, KVStore.get, KVStore.get_set_self,
      getField, getField.lookupField]
    simp [mkCommit, getField.lookupField, jeq]
  · intro v hv1 hv2
    unfold VC.commit at hv2 ⊢
    simp only [KVStore.put] at hv2 ⊢
    unfold VC.setRoot VC.isDirty VC.resolve
    simp only [VC.setHead, KVStore.put, KVStore.set, KVStore.get]
    rw [if_neg hv2]
    simp only [KVStore.get_set_self, getField, getField.lookupField]
    simp [mkCommit, getField.lookupField, jeq, beq_false_of_ne (Ne.symm hv1)]

/-- Witness for C3 on `stU` (non-empty working tier): the document stored in
the working tier survives into source of truth, `isDirty` is false right
after the commit, and true after `setRoot` of a root with a different CID. -/
theorem commit_spec_witness :
    ((stU.commit "cm" "alice" "t3").2).sourceOfTruth.get (cid exDoc1) =
      some exDoc1 ∧
    ((stU.commit "cm" "alice" "t3").2).isDirty = some false ∧
    (((stU.commit "cm" "alice" "t3").2).setRoot exRoot2).isDirty = some true :=
  ⟨(commit_spec stU "cm" "alice" "t3" (by decide)).1 (cid exDoc1) exDoc1 rfl
     (by decide),
   (commit_spec stU "cm" "alice" "t3" (by decide)).2.2.2.2.1,
   (commit_spec stU "cm" "alice" "t3" (by decide)).2.2.2.2.2 exRoot2
     (by decide) (by decide)⟩

/-- C5: commit parent arity: the constructor's initial commit (the head of a
fresh engine) has an empty `parents` list; every commit created by `commit()`
has `parents` exactly `[prior current head]`; every commit created by a
non-no-op `merge()` has `parents` exactly `[prior current head, source
head]`. -/
theorem commit_parent_arity :
    (∀ ts : String, ∃ k : JVal,
      (VC.init ts).resolve (VC.init ts).currentBranch.commit = some k ∧
      getField k "parents" = some (JVal.arr [])) ∧
    (∀ (st : VC) (message author ts : String), ∃ k : JVal,
      ((st.commit message author ts).2).resolve
          ((st.commit message author ts).2).currentBranch.commit = some k ∧
      getField k "parents" =
        some (JVal.arr [JVal.str st.currentBranch.commit])) ∧
    (∀ (st st' : VC) (src : Branch) (ts : String) (fuel : Nat),
      src.uuid ≠ st.currentBranch.uuid →
      st.currentBranch.commit ≠ src.commit →
      st.merge src ts fuel = some st' →
      ∃ k : JVal,
        st'.resolve st'.currentBranch.commit = some k ∧
        getField k "parents" =
          some (JVal.arr [JVal.str st.currentBranch.commit,
            JVal.str src.commit])) := by
  refine ⟨?_, ?_, ?_⟩
  · intro ts
    refine ⟨mkCommit [] (JVal.str (cid (grammarRoot []))) "system" ts
      "initial commit", ?_, rfl⟩
    rw [VC.resolve_of_wip_nil _ rfl]
    exact KVStore.get_set_self _ _ _
  · intro st message author ts
    refine ⟨mkCommit [JVal.str st.currentBranch.commit]
      (JVal.str st.workingRootCid) author ts message, ?_, rfl⟩
    rw [VC.resolve_of_wip_nil _ rfl]
    exact KVStore.get_set_self _ _ _
  · intro st st' src ts fuel hu hc hmerge
    unfold VC.merge at hmerge
    rw [if_neg hu, if_neg hc] at hmerge
    rcases h1 : st.resolve st.currentBranch.commit with _ | cc <;>
      rw [h1] at hmerge
    · exact Option.noConfusion hmerge
    · rcases h2 : st.resolve src.commit with _ | sc <;> rw [h2] at hmerge
      · exact Option.noConfusion hmerge
      · simp only [] at hmerge
        rcases h3 : st.mergeGrammarRoots ((getField cc "content").getD JVal.null)
            ((getField sc "content").getD JVal.null) fuel with _ | p <;>
          rw [h3] at hmerge
        · exact Option.noConfusion hmerge
        · obtain ⟨mergedContent, st1⟩ := p
          rcases mergedContent with _ | b | m | s | xs | fs
          · exact Option.noConfusion hmerge
          · exact Option.noConfusion hmerge
          · exact Option.noConfusion hmerge
          · rw [Option.some.injEq] at hmerge
            subst hmerge
            refine ⟨mkCommit
              [JVal.str st.currentBranch.commit, JVal.str src.commit]
              (JVal.str s) "merge" ts
              ("Merge '" ++ src.name ++ "' into '" ++ st.currentBranch.name ++
                "'"), ?_, rfl⟩
            rw [VC.resolve_of_wip_nil _ rfl]
            exact KVStore.get_set_self _ _ _
          · exact Option.noConfusion hmerge
          · exact Option.noConfusion hmerge

set_option maxRecDepth 100000 in
/-- Witness for C5: the fresh engine's head has no parents; a commit on the
fresh engine has one; the merge of `"feat"` into the default branch at `stC2`
yields a head with exactly `[default's prior head, feat's head]`. -/
theorem commit_parent_arity_witness :
    (∃ k : JVal, st0.resolve st0.currentBranch.commit = some k ∧
      getField k "parents" = some (JVal.arr [])) ∧
    (∃ k : JVal,
      ((st0.commit "m" "alice" "t1").2).resolve
          ((st0.commit "m" "alice" "t1").2).currentBranch.commit = some k ∧
      getField k "parents" =
        some (JVal.arr [JVal.str st0.currentBranch.commit])) ∧
    (∃ k : JVal, stMg.resolve stMg.currentBranch.commit = some k ∧
      getField k "parents" =
        some (JVal.arr [JVal.str stC2.currentBranch.commit,
          JVal.str stB.1.commit])) :=
  ⟨commit_parent_arity.1 "t0",
   commit_parent_arity.2.1 st0 "m" "alice" "t1",
   commit_parent_arity.2.2 stC2 stMg stB.1 "t9" 10 (by decide) (by decide) rfl⟩

/-- C8: in any store holding four distinct resolvable commits with
`c0 ← c1 ← c2` (branch A's head), `c1 ← c3` (branch B's head) and `c0`
parentless, `findCommonAncestor(A, B)` returns `c1`, `isAncestor(c1, c2)` is
true, and `isAncestor(c2, c1)` is false (three loop iterations of fuel
suffice). -/
theorem ancestor_scenario (resolve : Resolver) (c0 c1 c2 c3 : String)
    (k0v k1v k2v k3v : JVal) (uA nA uB nB : String) (fuel : Nat)
    (h0 : resolve c0 = some k0v) (p0 : parentsStrings k0v = [])
    (h1 : resolve c1 = some k1v) (p1 : parentsStrings k1v = [c0])
    (h2 : resolve c2 = some k2v) (p2 : parentsStrings k2v = [c1])
    (h3 : resolve c3 = some k3v) (p3 : parentsStrings k3v = [c1])
    (n01 : c0 ≠ c1) (n02 : c0 ≠ c2) (n03 : c0 ≠ c3)
    (n12 : c1 ≠ c2) (n13 : c1 ≠ c3) (n23 : c2 ≠ c3)
    (hfuel : 3 ≤ fuel) :
    findCommonAncestor ⟨uA, nA, c2⟩ ⟨uB, nB, c3⟩ resolve fuel =
      some (some c1) ∧
    isAncestor c1 c2 resolve fuel = true ∧
    isAncestor c2 c1 resolve fuel = false := by
  obtain ⟨f, rfl⟩ := Nat.exists_eq_add_of_le' hfuel
  refine ⟨?_, ?_, ?_⟩
  · unfold findCommonAncestor
    rw [fcaLoop]
    simp only [List.isEmpty_cons, Bool.false_and, Bool.false_eq_true, if_false,
      List.contains_nil, List.contains_cons, h2, h3, p2, p3, List.nil_append,
      beq_false_of_ne (Ne.symm n23), Bool.or_false, Bool.or_self]
    rw [fcaLoop]
    simp only [List.isEmpty_cons, Bool.false_and, Bool.false_eq_true, if_false,
      List.contains_cons, List.contains_nil, h1, p1,
      beq_false_of_ne (Ne.symm n13), beq_false_of_ne n13, Bool.or_false,
      Bool.or_self, beq_self_eq_true, Bool.true_or, if_true, ite_self]
  · unfold isAncestor
    rw [isAncestorLoop]
    simp only [if_neg (Ne.symm n12), List.contains_nil, Bool.false_eq_true,
      if_false, h2, p2, List.nil_append]
    rw [isAncestorLoop]
    simp
  · unfold isAncestor
    rw [isAncestorLoop]
    simp only [if_neg n12, List.contains_nil, Bool.false_eq_true,
      if_false, h1, p1, List.nil_append]
    rw [isAncestorLoop]
    simp only [if_neg n02, List.contains_cons, List.contains_nil,
      beq_false_of_ne n01, Bool.or_false, Bool.false_eq_true, if_false, h0, p0,
      List.nil_append, List.append_nil]
    exact isAncestorLoop_nil_queue c2 resolve (f + 1) [c0, c1]

/-- Witness for C8: the concrete four-commit store `res8`. -/
theorem ancestor_scenario_witness :
    findCommonAncestor ⟨"uA", "A", "c2"⟩ ⟨"uB", "B", "c3"⟩ res8 10 =
      some (some "c1") ∧
    isAncestor "c1" "c2" res8 10 = true ∧
    isAncestor "c2" "c1" res8 10 = false :=
  ancestor_scenario res8 "c0" "c1" "c2" "c3" k0 k1 k2 k3 "uA" "A" "uB" "B" 10
    rfl rfl rfl rfl rfl rfl rfl rfl
    (by decide) (by decide) (by decide) (by decide) (by decide) (by decide)
    (by decide)

set_option maxRecDepth 100000 in
/-- C2: in the recursive directory merge, a name present on both sides whose
resolved children are not both folders contributes exactly the source side's
child CID to the merged children (and leaves the store untouched at that
step); concretely, merging the tree holding document `"x" = cid exDoc1`
against the tree holding `"x" = cid exDoc2` (distinct CIDs) yields a merged
root whose single directory's children list is exactly `[cid exDoc2]`. -/
theorem merge_conflict_source_wins :
    (∀ (md : VC → JVal → JVal → Option (JVal × VC)) (sourceChildren : JMap)
        (st : VC) (name : Option JVal)
        (currentChildCid sourceChildCid : JVal)
        (rest : List (Option JVal × JVal)),
      sourceChildren.lookup name = some sourceChildCid →
      (isFolderQ (st.resolveV currentChildCid) &&
        isFolderQ (st.resolveV sourceChildCid)) = false →
      mergeChildLoop md sourceChildren st ((name, currentChildCid) :: rest) =
        (match mergeChildLoop md sourceChildren st rest with
         | none => none
         | some (tl, st') => some (sourceChildCid :: tl, st'))) ∧
    (stM.mergeGrammarRoots (JVal.str (cid exRoot1)) (JVal.str (cid exRoot2))
        10 =
      some (JVal.str (cid exMergedRoot),
        { stM with sourceOfTruth :=
            ((stM.sourceOfTruth.put exMergedDir).2.put exMergedRoot).2 }) ∧
      getField exMergedDir "children" =
        some (JVal.arr [JVal.str (cid exDoc2)]) ∧
      cid exDoc1 ≠ cid exDoc2) := by
  constructor
  · intro md sm st name c s rest hl hf
    simp only [mergeChildLoop]
    rw [hl]
    simp only [hf, Bool.false_eq_true, if_false]
  · exact ⟨rfl, rfl, by decide⟩

set_option maxRecDepth 100000 in
/-- Witness for C2's general clause: a one-entry conflict map on the concrete
store resolves to the source document's CID with the store unchanged. -/
theorem merge_conflict_source_wins_witness :
    mergeChildLoop (mergeDirectories 9)
        [(some (JVal.str "x"), JVal.str (cid exDoc2))] stM
        [(some (JVal.str "x"), JVal.str (cid exDoc1))] =
      some ([JVal.str (cid exDoc2)], stM) :=
  (merge_conflict_source_wins.1 (mergeDirectories 9)
    [(some (JVal.str "x"), JVal.str (cid exDoc2))]
    stM (some (JVal.str "x")) (JVal.str (cid exDoc1)) (JVal.str (cid exDoc2))
    [] rfl rfl).trans rfl

end Merkurial
